import Mathlib

/-!
Verification of the spiking-neural-network core (rust-core): a shallow
embedding over ℝ of `stdp.rs`, `neuron.rs`, `synapse.rs`, `spike.rs` and
`simulation.rs`, together with theorems settling the specification's claims.
All `f64` quantities are modelled as real numbers; `f64::exp` is `Real.exp`.
-/

namespace NeuroSNN

noncomputable section

/-! ## stdp.rs -/

/-- `STDPParams` (stdp.rs): parameters controlling the STDP learning rule. -/
structure STDPParams where
  a_plus : ℝ
  a_minus : ℝ
  tau_plus : ℝ
  tau_minus : ℝ
  w_min : ℝ
  w_max : ℝ

/-- `clamp_weight` (stdp.rs): clamp a weight to `[w_min, w_max]` by the two
source comparisons `w < w_min` and `w > w_max`. -/
def clamp_weight (w w_min w_max : ℝ) : ℝ :=
  if w < w_min then w_min
  else if w > w_max then w_max
  else w

/-- `stdp_update` (stdp.rs): weight change from the timing difference
`delta_t = t_post - t_pre`; the branch condition is `delta_t > 0.0`, so
`delta_t = 0` takes the depression branch. -/
def stdp_update (delta_t : ℝ) (params : STDPParams) : ℝ :=
  if delta_t > 0 then
    params.a_plus * Real.exp (-delta_t / params.tau_plus)
  else
    -params.a_minus * Real.exp (delta_t / params.tau_minus)

/-- `apply_stdp` (stdp.rs): add the update to the weight and clamp. -/
def apply_stdp (w delta_t : ℝ) (params : STDPParams) : ℝ :=
  clamp_weight (w + stdp_update delta_t params) params.w_min params.w_max

/-! ## neuron.rs -/

/-- `NeuronParams` (neuron.rs). -/
structure NeuronParams where
  tau_m : ℝ
  v_rest : ℝ
  v_thresh : ℝ
  v_reset : ℝ

/-- `Neuron` (neuron.rs): membrane potential plus its parameter copy. -/
structure Neuron where
  v_mem : ℝ
  params : NeuronParams

/-- `Neuron::new` (neuron.rs): starts at the resting potential. -/
def Neuron.new (params : NeuronParams) : Neuron :=
  { v_mem := params.v_rest, params := params }

/-- `Neuron::step` (neuron.rs): leaky integration, then threshold test and
reset. The Rust method mutates `self.v_mem` and returns `bool`; here the
result is the pair (fired, updated neuron). -/
def Neuron.step (n : Neuron) (input_current dt : ℝ) : Bool × Neuron :=
  let dv := (-(n.v_mem - n.params.v_rest) + input_current) / n.params.tau_m
  let v := n.v_mem + dv * dt
  if v ≥ n.params.v_thresh then
    (true, { n with v_mem := n.params.v_reset })
  else
    (false, { n with v_mem := v })

/-! ## spike.rs -/

/-- `Spike` (spike.rs). -/
structure Spike where
  neuron_id : ℕ
  time : ℝ

/-- `Spike::new` (spike.rs). -/
def Spike.new (neuron_id : ℕ) (time : ℝ) : Spike :=
  { neuron_id := neuron_id, time := time }

/-! ## synapse.rs -/

/-- `Synapse` (synapse.rs). -/
structure Synapse where
  pre_neuron : ℕ
  post_neuron : ℕ
  weight : ℝ
  last_pre_spike : Option ℝ
  last_post_spike : Option ℝ

/-- `Synapse::new` (synapse.rs): stores `weight` as given (no clamping) with
both spike timestamps unset. -/
def Synapse.new (pre_neuron post_neuron : ℕ) (weight : ℝ) : Synapse :=
  { pre_neuron := pre_neuron, post_neuron := post_neuron, weight := weight,
    last_pre_spike := none, last_post_spike := none }

/-- `Synapse::on_pre_spike` (synapse.rs): if a post-spike time is recorded,
apply STDP with `delta_t = t_post - t_pre`; always record `t_pre`. -/
def Synapse.on_pre_spike (s : Synapse) (t_pre : ℝ) (params : STDPParams) : Synapse :=
  let s1 :=
    match s.last_post_spike with
    | some t_post => { s with weight := apply_stdp s.weight (t_post - t_pre) params }
    | none => s
  { s1 with last_pre_spike := some t_pre }

/-- `Synapse::on_post_spike` (synapse.rs): if a pre-spike time is recorded,
apply STDP with `delta_t = t_post - t_pre`; always record `t_post`. -/
def Synapse.on_post_spike (s : Synapse) (t_post : ℝ) (params : STDPParams) : Synapse :=
  let s1 :=
    match s.last_pre_spike with
    | some t_pre => { s with weight := apply_stdp s.weight (t_post - t_pre) params }
    | none => s
  { s1 with last_post_spike := some t_post }

/-! ## simulation.rs -/

/-- `SimulationConfig` (simulation.rs). -/
structure SimulationConfig where
  dt : ℝ
  t_max : ℝ

/-- `Simulation` (simulation.rs). -/
structure Simulation where
  neurons : List Neuron
  synapses : List Synapse
  stdp_params : STDPParams
  config : SimulationConfig
  time : ℝ

/-- `WeightRecord` (simulation.rs): snapshot of a synaptic weight. -/
structure WeightRecord where
  time : ℝ
  pre : ℕ
  post : ℕ
  weight : ℝ

/-- `Simulation::new` (simulation.rs): `num_neurons` identical neurons and a
fully connected set of synapses, one per ordered pair `(pre, post)` with
`pre != post`, in the source's nested-loop order; `time` starts at `0.0`.
The constructor is total: the source performs no parameter validation. -/
def Simulation.new (num_neurons : ℕ) (neuron_params : NeuronParams)
    (config : SimulationConfig) (stdp_params : STDPParams)
    (initial_weight : ℝ) : Simulation :=
  { neurons := (List.range num_neurons).map fun _ => Neuron.new neuron_params,
    synapses := (List.range num_neurons).flatMap fun pre =>
      ((List.range num_neurons).filter fun post => pre ≠ post).map fun post =>
        Synapse.new pre post initial_weight,
    stdp_params := stdp_params,
    config := config,
    time := 0 }

/-- The state threaded through `Simulation::run`'s loop: the simulation (the
Rust `&mut self`) together with the `spikes` and `weight_log` accumulators. -/
structure RunState where
  sim : Simulation
  spikes : List Spike
  weight_log : List WeightRecord

/-- Body of `for syn in self.synapses.iter_mut()` in `Simulation::run`: two
sequential conditionals, `if syn.pre_neuron == i` then
`if syn.post_neuron == i`, at the firing neuron's index `i`. -/
def notifySynapse (i : ℕ) (t : ℝ) (params : STDPParams) (syn : Synapse) : Synapse :=
  let s1 := if syn.pre_neuron = i then syn.on_pre_spike t params else syn
  if s1.post_neuron = i then s1.on_post_spike t params else s1

/-- Body of `for (i, neuron) in self.neurons.iter_mut().enumerate()` in
`Simulation::run`: step neuron `i`; if it fired, append its `Spike`, notify
every synapse in declaration order, then log one `WeightRecord` per synapse
(after the updates). Out-of-range `i` never occurs in the loop. -/
def stepNeuronAt (fn : ℕ → ℝ → ℝ) (st : RunState) (i : ℕ) : RunState :=
  match st.sim.neurons[i]? with
  | none => st
  | some neuron =>
    let input_current := fn i st.sim.time
    let fired := (neuron.step input_current st.sim.config.dt).1
    let neurons := st.sim.neurons.set i (neuron.step input_current st.sim.config.dt).2
    if fired then
      let synapses := st.sim.synapses.map (notifySynapse i st.sim.time st.sim.stdp_params)
      { sim := { st.sim with neurons := neurons, synapses := synapses },
        spikes := st.spikes ++ [Spike.new i st.sim.time],
        weight_log := st.weight_log ++ synapses.map fun syn =>
          { time := st.sim.time, pre := syn.pre_neuron, post := syn.post_neuron,
            weight := syn.weight } }
    else
      { st with sim := { st.sim with neurons := neurons } }

/-- One iteration of the `while self.time < self.config.t_max` loop body in
`Simulation::run`, except the final `self.time += self.config.dt`: all
neurons processed in index order `0..N-1`, threading the state. -/
def stepAllNeurons (fn : ℕ → ℝ → ℝ) (st : RunState) : RunState :=
  (List.range st.sim.neurons.length).foldl (stepNeuronAt fn) st

/-- The `while self.time < self.config.t_max` loop of `Simulation::run`,
with an explicit iteration budget `fuel`: the Rust loop is not structurally
recursive (it does not terminate when `dt ≤ 0` and `time < t_max`), so the
embedding unrolls at most `fuel` iterations; `runLoop_time` below shows the
budget `stepsFrom` is never exhausted when `dt > 0`. -/
def runLoop (fn : ℕ → ℝ → ℝ) : ℕ → RunState → RunState
  | 0, st => st
  | fuel + 1, st =>
    if st.sim.time < st.sim.config.t_max then
      let st1 := stepAllNeurons fn st
      runLoop fn fuel
        { st1 with sim := { st1.sim with time := st1.sim.time + st1.sim.config.dt } }
    else st

/-- The number of iterations the run loop performs from time `time` when
`dt > 0`: the least `k` with `time + k * dt ≥ t_max`. -/
def stepsFrom (time dt t_max : ℝ) : ℕ := ⌈(t_max - time) / dt⌉₊

/-- Iteration counter mirroring `runLoop`'s control flow (which reads only
`time`, `dt` and `t_max`, all invariant under `stepAllNeurons` except for
the final `time += dt`): the number of loop iterations performed. -/
def loopCount : ℕ → ℝ → ℝ → ℝ → ℕ
  | 0, _, _, _ => 0
  | fuel + 1, time, dt, t_max =>
    if time < t_max then loopCount fuel (time + dt) dt t_max + 1 else 0

/-- `Simulation::run` (simulation.rs): run the while loop to completion
(budget `stepsFrom`, sufficient whenever `dt > 0`), returning the mutated
simulation together with the spike list and the weight log converted to
tuples as in the source's final `into_iter().map(...)`. -/
def Simulation.run (s : Simulation) (fn : ℕ → ℝ → ℝ) :
    Simulation × List Spike × List (ℝ × ℕ × ℕ × ℝ) :=
  let st := runLoop fn (stepsFrom s.time s.config.dt s.config.t_max)
    { sim := s, spikes := [], weight_log := [] }
  (st.sim, st.spikes, st.weight_log.map fun r => (r.time, r.pre, r.post, r.weight))

/-! ## Spike-notification sequences

A synapse's externally observable history is a sequence of `on_pre_spike` /
`on_post_spike` calls; `applyEvents` folds such a sequence over a synapse. -/

/-- One spike notification arriving at a synapse. -/
inductive SpikeEvent where
  | pre (t : ℝ)
  | post (t : ℝ)

/-- Deliver one notification to a synapse. -/
def applyEvent (params : STDPParams) (s : Synapse) : SpikeEvent → Synapse
  | .pre t => s.on_pre_spike t params
  | .post t => s.on_post_spike t params

/-- Deliver a sequence of notifications, oldest first. -/
def applyEvents (params : STDPParams) (s : Synapse) (es : List SpikeEvent) : Synapse :=
  es.foldl (applyEvent params) s

/-! ## Sample parameter values used by concrete instantiations -/

/-- The STDP parameters of `run_example` (lib.rs) with unit learning rates. -/
def sampleP : STDPParams :=
  { a_plus := 1, a_minus := 1, tau_plus := 1, tau_minus := 1, w_min := 0, w_max := 1 }

/-- The neuron parameters of `run_example` (lib.rs) with `tau_m = 1`. -/
def sampleNP : NeuronParams := { tau_m := 1, v_rest := 0, v_thresh := 1, v_reset := 0 }

/-- A small configuration: `dt = 1`, `t_max = 1`. -/
def sampleCfg : SimulationConfig := { dt := 1, t_max := 1 }

/-- Invalid neuron parameters: non-positive membrane time constant. -/
def badNP : NeuronParams := { tau_m := -1, v_rest := 0, v_thresh := 1, v_reset := 0 }

/-- Invalid configuration: `dt ≤ 0` and `t_max ≤ 0`. -/
def badCfg : SimulationConfig := { dt := -1, t_max := -2 }

/-- Invalid STDP parameters: malformed weight bounds `w_min > w_max`. -/
def badSP : STDPParams :=
  { a_plus := 1, a_minus := 1, tau_plus := 1, tau_minus := 1, w_min := 1, w_max := 0 }

end

/-! ## Helper lemmas -/

theorem clamp_weight_mem (x w_min w_max : ℝ) (h : w_min ≤ w_max) :
    w_min ≤ clamp_weight x w_min w_max ∧ clamp_weight x w_min w_max ≤ w_max := by
  unfold clamp_weight
  split_ifs with h1 h2 <;> constructor <;> linarith

theorem apply_stdp_mem (w delta_t : ℝ) (p : STDPParams) (h : p.w_min ≤ p.w_max) :
    p.w_min ≤ apply_stdp w delta_t p ∧ apply_stdp w delta_t p ≤ p.w_max :=
  clamp_weight_mem _ _ _ h

theorem applyEvent_mem (p : STDPParams) (h : p.w_min ≤ p.w_max) (s : Synapse)
    (hs : p.w_min ≤ s.weight ∧ s.weight ≤ p.w_max) (e : SpikeEvent) :
    p.w_min ≤ (applyEvent p s e).weight ∧ (applyEvent p s e).weight ≤ p.w_max := by
  cases e with
  | pre t =>
    cases hpost : s.last_post_spike with
    | none => simpa [applyEvent, Synapse.on_pre_spike, hpost] using hs
    | some tp =>
      simp only [applyEvent, Synapse.on_pre_spike, hpost]
      exact apply_stdp_mem _ _ _ h
  | post t =>
    cases hpre : s.last_pre_spike with
    | none => simpa [applyEvent, Synapse.on_post_spike, hpre] using hs
    | some tq =>
      simp only [applyEvent, Synapse.on_post_spike, hpre]
      exact apply_stdp_mem _ _ _ h

theorem applyEvents_mem (p : STDPParams) (h : p.w_min ≤ p.w_max) :
    ∀ (es : List SpikeEvent) (s : Synapse),
      p.w_min ≤ s.weight ∧ s.weight ≤ p.w_max →
      p.w_min ≤ (applyEvents p s es).weight ∧ (applyEvents p s es).weight ≤ p.w_max
  | [], _, hs => hs
  | e :: es, s, hs =>
    applyEvents_mem p h es (applyEvent p s e) (applyEvent_mem p h s hs e)

theorem foldl_pre_only (params : STDPParams) :
    ∀ (ts : List ℝ) (s : Synapse), s.last_post_spike = none →
      (ts.foldl (fun syn tp => syn.on_pre_spike tp params) s).weight = s.weight ∧
      (ts.foldl (fun syn tp => syn.on_pre_spike tp params) s).last_post_spike = none
  | [], _, h => ⟨rfl, h⟩
  | t :: ts, s, h => by
    have h1 : (s.on_pre_spike t params).last_post_spike = none := by
      simp [Synapse.on_pre_spike, h]
    have h2 : (s.on_pre_spike t params).weight = s.weight := by
      simp [Synapse.on_pre_spike, h]
    have ih := foldl_pre_only params ts (s.on_pre_spike t params) h1
    exact ⟨by rw [List.foldl_cons, ih.1, h2], by rw [List.foldl_cons, ih.2]⟩

/-! ## Claims about the plasticity rule and the neuron -/

/-- C5: with positive `a_plus`, `a_minus`, `tau_plus`, `tau_minus`,
`stdp_update` returns the positive potentiation term
`a_plus * exp (-delta_t / tau_plus)` for `delta_t > 0` and the nonpositive
depression term `-a_minus * exp (delta_t / tau_minus)` for `delta_t ≤ 0`;
`delta_t = 0` takes the depression branch and yields exactly `-a_minus`. -/
theorem stdp_update_sign (delta_t : ℝ) (p : STDPParams)
    (hap : 0 < p.a_plus) (ham : 0 < p.a_minus)
    (htp : 0 < p.tau_plus) (htm : 0 < p.tau_minus) :
    (0 < delta_t →
      stdp_update delta_t p = p.a_plus * Real.exp (-delta_t / p.tau_plus) ∧
      0 < stdp_update delta_t p) ∧
    (delta_t ≤ 0 →
      stdp_update delta_t p = -p.a_minus * Real.exp (delta_t / p.tau_minus) ∧
      stdp_update delta_t p ≤ 0) ∧
    stdp_update 0 p = -p.a_minus := by
  refine ⟨fun hpos => ?_, fun hneg => ?_, ?_⟩
  · rw [stdp_update, if_pos hpos]
    exact ⟨rfl, mul_pos hap (Real.exp_pos _)⟩
  · rw [stdp_update, if_neg (not_lt.mpr hneg)]
    refine ⟨rfl, ?_⟩
    have hexp := Real.exp_pos (delta_t / p.tau_minus)
    nlinarith
  · rw [stdp_update, if_neg (lt_irrefl 0), zero_div, Real.exp_zero, mul_one]

/-- C5 witness: at the sample parameters, `delta_t = 0` yields `-a_minus`. -/
theorem stdp_update_sign_witness : stdp_update 0 sampleP = -sampleP.a_minus :=
  (stdp_update_sign 0 sampleP (by norm_num [sampleP]) (by norm_num [sampleP])
    (by norm_num [sampleP]) (by norm_num [sampleP])).2.2

/-- C6: `apply_stdp` is exactly clamp of `w + stdp_update`; the clamp
saturates below `w_min` to `w_min`, above `w_max` to `w_max` and is the
identity inside the bounds; hence with `w_min ≤ w_max` a weight already at
`w_max` never moves above `w_max` under a positive `delta_t`, and one at
`w_min` never moves below `w_min` under a nonpositive `delta_t`. -/
theorem apply_stdp_clamps (w delta_t : ℝ) (p : STDPParams) (hwb : p.w_min ≤ p.w_max) :
    apply_stdp w delta_t p = clamp_weight (w + stdp_update delta_t p) p.w_min p.w_max ∧
    (∀ x : ℝ, x < p.w_min → clamp_weight x p.w_min p.w_max = p.w_min) ∧
    (∀ x : ℝ, p.w_max < x → clamp_weight x p.w_min p.w_max = p.w_max) ∧
    (∀ x : ℝ, p.w_min ≤ x → x ≤ p.w_max → clamp_weight x p.w_min p.w_max = x) ∧
    (0 < delta_t → apply_stdp p.w_max delta_t p ≤ p.w_max) ∧
    (delta_t ≤ 0 → p.w_min ≤ apply_stdp p.w_min delta_t p) := by
  refine ⟨rfl, fun x hx => ?_, fun x hx => ?_, fun x hx1 hx2 => ?_,
    fun _ => (apply_stdp_mem _ _ _ hwb).2, fun _ => (apply_stdp_mem _ _ _ hwb).1⟩
  · rw [clamp_weight, if_pos hx]
  · rw [clamp_weight, if_neg (not_lt.mpr (hwb.trans hx.le)), if_pos hx]
  · rw [clamp_weight, if_neg (not_lt.mpr hx1), if_neg (not_lt.mpr hx2)]

/-- C6 witness: at the sample parameters the saturation bound holds at
`w = w_max` with `delta_t = 1`. -/
theorem apply_stdp_clamps_witness :
    apply_stdp sampleP.w_max 1 sampleP ≤ sampleP.w_max :=
  (apply_stdp_clamps sampleP.w_max 1 sampleP (by norm_num [sampleP])).2.2.2.2.1 one_pos

/-- C4: `Neuron::step` computes
`v_new = v_mem + dt * ((-(v_mem - v_rest) + input_current) / tau_m)`; if
`v_new ≥ v_thresh` it returns `true` with `v_mem` reset to exactly
`v_reset`, otherwise it returns `false` with `v_mem = v_new < v_thresh`;
in either case the parameters are untouched (only `v_mem` is mutated), and
detection and reset are one atomic case split. -/
theorem neuron_step_spec (n : Neuron) (input_current dt : ℝ) :
    (n.params.v_thresh ≤
        n.v_mem + dt * ((-(n.v_mem - n.params.v_rest) + input_current) / n.params.tau_m) →
      n.step input_current dt = (true, { n with v_mem := n.params.v_reset })) ∧
    (n.v_mem + dt * ((-(n.v_mem - n.params.v_rest) + input_current) / n.params.tau_m) <
        n.params.v_thresh →
      n.step input_current dt =
        (false, { n with v_mem :=
          n.v_mem + dt * ((-(n.v_mem - n.params.v_rest) + input_current) / n.params.tau_m) }) ∧
      (n.step input_current dt).2.v_mem < n.params.v_thresh) ∧
    (n.step input_current dt).2.params = n.params := by
  have key : n.step input_current dt =
      if n.v_mem + dt * ((-(n.v_mem - n.params.v_rest) + input_current) / n.params.tau_m) ≥
          n.params.v_thresh
      then (true, { n with v_mem := n.params.v_reset })
      else (false, { n with v_mem :=
        n.v_mem + dt * ((-(n.v_mem - n.params.v_rest) + input_current) / n.params.tau_m) }) := by
    rw [Neuron.step]
    have harith : (-(n.v_mem - n.params.v_rest) + input_current) / n.params.tau_m * dt
        = dt * ((-(n.v_mem - n.params.v_rest) + input_current) / n.params.tau_m) := by ring
    rw [harith]
  refine ⟨fun h => ?_, fun h => ?_, ?_⟩
  · rw [key, if_pos h]
  · rw [key, if_neg (not_le.mpr h)]
    exact ⟨rfl, h⟩
  · rw [key]
    split <;> rfl

/-! ## Claims about the synapse -/

/-- C2 counterexample: with the sample bounds `w_min = 0 ≤ w_max = 1`,
`Synapse::new` stores the initial weight `5` unclamped, so the weight is
outside `[w_min, w_max]` immediately after creation. -/
theorem weight_bounds_counterexample :
    sampleP.w_min ≤ sampleP.w_max ∧
    (Synapse.new 0 1 5).weight = 5 ∧ ¬ (Synapse.new 0 1 5).weight ≤ sampleP.w_max := by
  refine ⟨by norm_num [sampleP], rfl, ?_⟩
  norm_num [Synapse.new, sampleP]

/-- C2 (amended): given `w_min ≤ w_max` and an initial weight inside
`[w_min, w_max]`, the weight of a fresh synapse stays inside `[w_min, w_max]`
after every pre/post spike notification of any sequence (`Synapse::new` does
not clamp, so an out-of-range initial weight is required to be excluded). -/
theorem weight_bounds_invariant (p : STDPParams) (a b : ℕ) (w0 : ℝ)
    (es : List SpikeEvent) (hwb : p.w_min ≤ p.w_max)
    (h0 : p.w_min ≤ w0) (h1 : w0 ≤ p.w_max) :
    p.w_min ≤ (applyEvents p (Synapse.new a b w0) es).weight ∧
    (applyEvents p (Synapse.new a b w0) es).weight ≤ p.w_max :=
  applyEvents_mem p hwb es (Synapse.new a b w0) ⟨h0, h1⟩

/-- C2 witness: the invariant at the sample parameters, initial weight `1/2`
and the sequence pre-spike at `1` then post-spike at `1`. -/
theorem weight_bounds_invariant_witness :
    sampleP.w_min ≤
      (applyEvents sampleP (Synapse.new 0 1 (1 / 2))
        [SpikeEvent.pre 1, SpikeEvent.post 1]).weight ∧
    (applyEvents sampleP (Synapse.new 0 1 (1 / 2))
        [SpikeEvent.pre 1, SpikeEvent.post 1]).weight ≤ sampleP.w_max :=
  weight_bounds_invariant sampleP 0 1 (1 / 2) [SpikeEvent.pre 1, SpikeEvent.post 1]
    (by norm_num [sampleP]) (by norm_num [sampleP]) (by norm_num [sampleP])

/-- C7: `on_pre_spike` applies STDP with `delta_t = last_post_spike - t_pre`
exactly when a post-spike time is recorded, and always records `t_pre`
(symmetrically for `on_post_spike` with `delta_t = t_post - last_pre_spike`);
consequently a fresh synapse receiving only pre-spikes keeps its initial
weight. -/
theorem synapse_spike_spec (s : Synapse) (t : ℝ) (params : STDPParams) :
    (s.on_pre_spike t params).last_pre_spike = some t ∧
    (s.on_post_spike t params).last_post_spike = some t ∧
    (∀ tp : ℝ, s.last_post_spike = some tp →
      s.on_pre_spike t params =
        { s with weight := apply_stdp s.weight (tp - t) params,
                 last_pre_spike := some t }) ∧
    (s.last_post_spike = none →
      s.on_pre_spike t params = { s with last_pre_spike := some t }) ∧
    (∀ tq : ℝ, s.last_pre_spike = some tq →
      s.on_post_spike t params =
        { s with weight := apply_stdp s.weight (t - tq) params,
                 last_post_spike := some t }) ∧
    (s.last_pre_spike = none →
      s.on_post_spike t params = { s with last_post_spike := some t }) ∧
    (∀ (a b : ℕ) (w0 : ℝ) (ts : List ℝ),
      (ts.foldl (fun syn tp => syn.on_pre_spike tp params) (Synapse.new a b w0)).weight
        = w0) := by
  refine ⟨?_, ?_, fun tp htp => ?_, fun hn => ?_, fun tq htq => ?_, fun hn => ?_,
    fun a b w0 ts => ?_⟩
  · cases h : s.last_post_spike <;> simp [Synapse.on_pre_spike, h]
  · cases h : s.last_pre_spike <;> simp [Synapse.on_post_spike, h]
  · simp [Synapse.on_pre_spike, htp]
  · simp [Synapse.on_pre_spike, hn]
  · simp [Synapse.on_post_spike, htq]
  · simp [Synapse.on_post_spike, hn]
  · exact (foldl_pre_only params ts (Synapse.new a b w0) rfl).1

/-! ## Construction (Simulation::new, Neuron::new) -/

theorem length_filter_ne (n pre : ℕ) (h : pre < n) :
    ((List.range n).filter fun post => pre ≠ post).length = n - 1 := by
  have hc : (List.range n).filter (fun post => pre ≠ post)
      = (List.range n).filter (fun post => post != pre) := by
    apply List.filter_congr
    intro a _
    rcases eq_or_ne pre a with rfl | hne
    · simp
    · simp [hne, Ne.symm hne]
  rw [hc, ← List.Nodup.erase_eq_filter (List.nodup_range n) pre]
  have := List.length_erase_add_one (List.mem_range.mpr h)
  rw [List.length_range] at this
  omega

theorem simulation_new_synapses_length (n : ℕ) (np : NeuronParams)
    (cfg : SimulationConfig) (sp : STDPParams) (w0 : ℝ) :
    (Simulation.new n np cfg sp w0).synapses.length = n * (n - 1) := by
  show ((List.range n).flatMap fun pre =>
      ((List.range n).filter fun post => pre ≠ post).map fun post =>
        Synapse.new pre post w0).length = n * (n - 1)
  rw [List.length_flatMap]
  have hmap : (List.map (List.length ∘ fun pre =>
      ((List.range n).filter fun post => pre ≠ post).map fun post =>
        Synapse.new pre post w0) (List.range n))
      = List.map (fun _ => n - 1) (List.range n) := by
    apply List.map_congr_left
    intro pre hpre
    simp only [Function.comp_apply, List.length_map]
    exact length_filter_ne n pre (List.mem_range.mp hpre)
  rw [hmap, List.map_const', List.sum_replicate, List.length_range, smul_eq_mul]

/-- C1 counterexample: with `dt ≤ 0`, `t_max ≤ 0`, non-positive `tau_m` and
`w_min > w_max` all at once, `Simulation::new` still returns a fully formed
instance (2 neurons at rest, 2 synapses, time 0) and `Neuron::new` a valid
neuron, and `run` on that instance returns normally — no InvalidParameter
error exists anywhere in the code, contradicting the claim that
construction fails for such parameters. -/
theorem construction_counterexample :
    badCfg.dt ≤ 0 ∧ badCfg.t_max ≤ 0 ∧ badNP.tau_m ≤ 0 ∧ badSP.w_max < badSP.w_min ∧
    (Simulation.new 2 badNP badCfg badSP (1 / 2)).neurons.length = 2 ∧
    (Simulation.new 2 badNP badCfg badSP (1 / 2)).synapses.length = 2 ∧
    (Simulation.new 2 badNP badCfg badSP (1 / 2)).time = 0 ∧
    (Neuron.new badNP).v_mem = badNP.v_rest := by
  refine ⟨by norm_num [badCfg], by norm_num [badCfg], by norm_num [badNP],
    by norm_num [badSP], by simp [Simulation.new], ?_, rfl, rfl⟩
  rw [simulation_new_synapses_length]

/-- C1 (amended): `Simulation::new` and `Neuron::new` perform no parameter
validation and cannot fail: for every parameter combination — including
`dt ≤ 0`, `t_max ≤ 0`, non-positive `tau_m` and `w_min > w_max` — they
return a fully initialized instance with `num_neurons` neurons at the
resting potential, `num_neurons * (num_neurons - 1)` synapses and
`time = 0`; no InvalidParameter error is raised at construction time. -/
theorem construction_total (num_neurons : ℕ) (np : NeuronParams)
    (cfg : SimulationConfig) (sp : STDPParams) (w0 : ℝ) :
    (Simulation.new num_neurons np cfg sp w0).neurons.length = num_neurons ∧
    (Simulation.new num_neurons np cfg sp w0).synapses.length
      = num_neurons * (num_neurons - 1) ∧
    (Simulation.new num_neurons np cfg sp w0).time = 0 ∧
    (Simulation.new num_neurons np cfg sp w0).config = cfg ∧
    (Simulation.new num_neurons np cfg sp w0).stdp_params = sp ∧
    (∀ nr ∈ (Simulation.new num_neurons np cfg sp w0).neurons, nr = Neuron.new np) ∧
    (Neuron.new np).v_mem = np.v_rest := by
  refine ⟨by simp [Simulation.new],
    simulation_new_synapses_length num_neurons np cfg sp w0, rfl, rfl, rfl, ?_, rfl⟩
  intro nr hnr
  simp only [Simulation.new, List.mem_map] at hnr
  obtain ⟨a, -, ha⟩ := hnr
  exact ha.symm

/-! ## Frame lemmas for the run loop -/

theorem stepNeuronAt_frame (fn : ℕ → ℝ → ℝ) (st : RunState) (i : ℕ) :
    (stepNeuronAt fn st i).sim.time = st.sim.time ∧
    (stepNeuronAt fn st i).sim.config = st.sim.config := by
  unfold stepNeuronAt
  cases h : st.sim.neurons[i]? with
  | none => exact ⟨rfl, rfl⟩
  | some neuron =>
    cases hf : (neuron.step (fn i st.sim.time) st.sim.config.dt).1 <;>
      simp [hf]

theorem stepAllNeurons_frame (fn : ℕ → ℝ → ℝ) (st : RunState) :
    (stepAllNeurons fn st).sim.time = st.sim.time ∧
    (stepAllNeurons fn st).sim.config = st.sim.config := by
  unfold stepAllNeurons
  generalize List.range st.sim.neurons.length = l
  induction l generalizing st with
  | nil => exact ⟨rfl, rfl⟩
  | cons j l ih =>
    rw [List.foldl_cons]
    have h1 := stepNeuronAt_frame fn st j
    have h2 := ih (stepNeuronAt fn st j)
    exact ⟨h2.1.trans h1.1, h2.2.trans h1.2⟩

theorem runLoop_of_done (fn : ℕ → ℝ → ℝ) (fuel : ℕ) (st : RunState)
    (h : ¬ st.sim.time < st.sim.config.t_max) : runLoop fn fuel st = st := by
  cases fuel with
  | zero => rfl
  | succ fuel => rw [runLoop, if_neg h]

theorem stepsFrom_eq_zero (time dt t_max : ℝ) (hdt : 0 < dt) (h : t_max ≤ time) :
    stepsFrom time dt t_max = 0 := by
  rw [stepsFrom, Nat.ceil_eq_zero]
  exact div_nonpos_of_nonpos_of_nonneg (by linarith) hdt.le

theorem stepsFrom_step (time dt t_max : ℝ) (hdt : 0 < dt) (h : time < t_max) :
    stepsFrom time dt t_max = stepsFrom (time + dt) dt t_max + 1 := by
  have hx : (0 : ℝ) < (t_max - time) / dt := div_pos (by linarith) hdt
  have hsub : (t_max - (time + dt)) / dt = (t_max - time) / dt - 1 := by
    field_simp
    ring
  rw [stepsFrom, stepsFrom, hsub]
  rcases le_or_lt 1 ((t_max - time) / dt) with hge | hlt
  · have hadd := Nat.ceil_add_one (α := ℝ) (a := (t_max - time) / dt - 1) (by linarith)
    rw [sub_add_cancel] at hadd
    exact hadd
  · rw [Nat.ceil_eq_zero.mpr (by linarith : (t_max - time) / dt - 1 ≤ 0)]
    have hle : ⌈(t_max - time) / dt⌉₊ ≤ 1 := by
      rw [Nat.ceil_le]
      push_cast
      linarith
    have hpos : 0 < ⌈(t_max - time) / dt⌉₊ := Nat.ceil_pos.mpr hx
    omega

/-- With `dt > 0` and fuel at least `stepsFrom`, the embedded while loop
reaches `time ≥ t_max` (the fuel is never exhausted: the Rust loop
terminates), preserves the configuration, and advances `time` by exactly
`loopCount` steps of `dt`, `loopCount` being `stepsFrom`. -/
theorem runLoop_time (fn : ℕ → ℝ → ℝ) :
    ∀ (fuel : ℕ) (st : RunState), 0 < st.sim.config.dt →
      stepsFrom st.sim.time st.sim.config.dt st.sim.config.t_max ≤ fuel →
      (runLoop fn fuel st).sim.config = st.sim.config ∧
      st.sim.config.t_max ≤ (runLoop fn fuel st).sim.time ∧
      (runLoop fn fuel st).sim.time = st.sim.time +
        (loopCount fuel st.sim.time st.sim.config.dt st.sim.config.t_max : ℝ) *
          st.sim.config.dt ∧
      loopCount fuel st.sim.time st.sim.config.dt st.sim.config.t_max
        = stepsFrom st.sim.time st.sim.config.dt st.sim.config.t_max := by
  intro fuel
  induction fuel with
  | zero =>
    intro st hdt hfuel
    have hz : stepsFrom st.sim.time st.sim.config.dt st.sim.config.t_max = 0 :=
      Nat.le_zero.mp hfuel
    have hdone : st.sim.config.t_max ≤ st.sim.time := by
      by_contra hlt
      push_neg at hlt
      have hpos := div_pos (by linarith : (0 : ℝ) < st.sim.config.t_max - st.sim.time) hdt
      have := Nat.ceil_eq_zero.mp hz
      linarith
    exact ⟨rfl, hdone, by simp [runLoop, loopCount], hz.symm⟩
  | succ fuel ih =>
    intro st hdt hfuel
    by_cases h : st.sim.time < st.sim.config.t_max
    · have hframe := stepAllNeurons_frame fn st
      set st1 := stepAllNeurons fn st with hst1
      set st2 : RunState :=
        { st1 with sim := { st1.sim with time := st1.sim.time + st1.sim.config.dt } }
        with hst2
      have ht2 : st2.sim.time = st.sim.time + st.sim.config.dt := by
        simp [hst2, hframe.1, hframe.2]
      have hc2 : st2.sim.config = st.sim.config := by
        simp [hst2, hframe.2]
      have hstep := stepsFrom_step st.sim.time st.sim.config.dt st.sim.config.t_max hdt h
      have hle2 : stepsFrom st2.sim.time st2.sim.config.dt st2.sim.config.t_max ≤ fuel := by
        rw [ht2, hc2]
        omega
      have hrw : runLoop fn (fuel + 1) st = runLoop fn fuel st2 := by
        rw [runLoop, if_pos h]
      have hcount : loopCount (fuel + 1) st.sim.time st.sim.config.dt st.sim.config.t_max
          = loopCount fuel (st.sim.time + st.sim.config.dt) st.sim.config.dt
              st.sim.config.t_max + 1 := by
        rw [loopCount, if_pos h]
      have ihh := ih st2 (by rw [hc2]; exact hdt) hle2
      refine ⟨?_, ?_, ?_, ?_⟩
      · rw [hrw, ihh.1, hc2]
      · rw [hrw]
        have := ihh.2.1
        rw [hc2] at this
        exact this
      · rw [hrw, ihh.2.2.1, hcount, ht2, hc2]
        push_cast
        ring
      · rw [hrw] at *
        rw [hcount, hstep]
        have := ihh.2.2.2
        rw [ht2, hc2] at this
        omega
    · rw [runLoop_of_done fn (fuel + 1) st h]
      have hz : stepsFrom st.sim.time st.sim.config.dt st.sim.config.t_max = 0 :=
        stepsFrom_eq_zero _ _ _ hdt (not_lt.mp h)
      refine ⟨rfl, not_lt.mp h, ?_, ?_⟩
      · rw [loopCount, if_neg h]
        push_cast
        ring
      · rw [loopCount, if_neg h, hz]

theorem loopCount_eq_stepsFrom (dt t_max : ℝ) (hdt : 0 < dt) :
    ∀ (fuel : ℕ) (time : ℝ), stepsFrom time dt t_max ≤ fuel →
      loopCount fuel time dt t_max = stepsFrom time dt t_max
  | 0, time, h => by
    rw [loopCount]
    omega
  | fuel + 1, time, h => by
    by_cases hlt : time < t_max
    · have hstep := stepsFrom_step time dt t_max hdt hlt
      rw [loopCount, if_pos hlt, hstep,
        loopCount_eq_stepsFrom dt t_max hdt fuel (time + dt) (by omega)]
    · rw [loopCount, if_neg hlt, stepsFrom_eq_zero time dt t_max hdt (not_lt.mp hlt)]

theorem run_time (s : Simulation) (fn : ℕ → ℝ → ℝ) (hdt : 0 < s.config.dt) :
    (s.run fn).1.time = s.time +
      (loopCount (stepsFrom s.time s.config.dt s.config.t_max) s.time s.config.dt
        s.config.t_max : ℝ) * s.config.dt ∧
    s.config.t_max ≤ (s.run fn).1.time ∧
    (s.run fn).1.config = s.config := by
  have h := runLoop_time fn (stepsFrom s.time s.config.dt s.config.t_max)
    (RunState.mk s [] []) hdt (le_refl _)
  exact ⟨h.2.2.1, h.2.1, h.1⟩

/-! ## Claims about the run loop -/

/-- C8: with `dt > 0` and `t_max > 0`, the run loop (time starting at `0`,
advanced by repeated addition of `dt`, condition `time < t_max` checked
before each step) executes exactly `t_max / dt` steps when `dt` evenly
divides `t_max` and `⌊t_max / dt⌋ + 1` steps otherwise; the time value of
the final executed step, `(count - 1) * dt`, is strictly below `t_max`;
and `Simulation::run` on a freshly constructed simulation ends with
`time = count * dt`. -/
theorem run_step_count (dt t_max : ℝ) (fuel : ℕ) (hdt : 0 < dt) (hmax : 0 < t_max)
    (hfuel : stepsFrom 0 dt t_max ≤ fuel) :
    ((∃ n : ℕ, t_max = n * dt) → (loopCount fuel 0 dt t_max : ℝ) = t_max / dt) ∧
    ((¬ ∃ n : ℕ, t_max = n * dt) →
      (loopCount fuel 0 dt t_max : ℝ) = (⌊t_max / dt⌋₊ : ℝ) + 1) ∧
    ((loopCount fuel 0 dt t_max : ℝ) - 1) * dt < t_max ∧
    (∀ (num_neurons : ℕ) (np : NeuronParams) (sp : STDPParams) (w0 : ℝ)
        (fn : ℕ → ℝ → ℝ),
      ((Simulation.new num_neurons np ⟨dt, t_max⟩ sp w0).run fn).1.time
        = (loopCount fuel 0 dt t_max : ℝ) * dt) := by
  have hx : (0 : ℝ) < t_max / dt := div_pos hmax hdt
  have hN : loopCount fuel 0 dt t_max = ⌈t_max / dt⌉₊ := by
    rw [loopCount_eq_stepsFrom dt t_max hdt fuel 0 hfuel, stepsFrom, sub_zero]
  refine ⟨?_, ?_, ?_, ?_⟩
  · rintro ⟨n, hn⟩
    have hq : t_max / dt = (n : ℝ) := by
      rw [hn]
      field_simp
    rw [hN, hq, Nat.ceil_natCast]
  · intro hnd
    have hlow : (⌊t_max / dt⌋₊ : ℝ) < t_max / dt := by
      rcases lt_or_eq_of_le (Nat.floor_le hx.le) with hlt | heq
      · exact hlt
      · refine absurd ⟨⌊t_max / dt⌋₊, ?_⟩ hnd
        rw [heq, div_mul_cancel₀ _ hdt.ne']
    have hup : ⌈t_max / dt⌉₊ ≤ ⌊t_max / dt⌋₊ + 1 := Nat.ceil_le_floor_add_one _
    have hdown : ⌊t_max / dt⌋₊ < ⌈t_max / dt⌉₊ := Nat.lt_ceil.mpr hlow
    have heq : ⌈t_max / dt⌉₊ = ⌊t_max / dt⌋₊ + 1 := by omega
    rw [hN, heq]
    push_cast
    ring
  · rw [hN]
    have h1 : (⌈t_max / dt⌉₊ : ℝ) < t_max / dt + 1 := Nat.ceil_lt_add_one hx.le
    have h2 : ((⌈t_max / dt⌉₊ : ℝ) - 1) * dt < (t_max / dt) * dt :=
      mul_lt_mul_of_pos_right (by linarith) hdt
    rw [div_mul_cancel₀ _ hdt.ne'] at h2
    exact h2
  · intro num_neurons np sp w0 fn
    have hr := (run_time (Simulation.new num_neurons np ⟨dt, t_max⟩ sp w0) fn hdt).1
    have hcount : loopCount (stepsFrom 0 dt t_max) 0 dt t_max
        = loopCount fuel 0 dt t_max := by
      rw [loopCount_eq_stepsFrom dt t_max hdt _ 0 (le_refl _),
        loopCount_eq_stepsFrom dt t_max hdt fuel 0 hfuel]
    simp only [Simulation.new] at hr ⊢
    rw [hr, hcount]
    ring

/-- C8 witness: at `dt = 1`, `t_max = 2` the final executed step's time is
below `t_max`. -/
theorem run_step_count_witness :
    ((loopCount (stepsFrom 0 1 2) 0 1 2 : ℝ) - 1) * 1 < 2 :=
  (run_step_count 1 2 (stepsFrom 0 1 2) one_pos two_pos (le_refl _)).2.2.1

/-- C9: two simulations constructed with identical neuron count, neuron
parameters, configuration, STDP parameters and initial weight, run with
pointwise-identical pure input-current functions, produce identical spike
sequences and identical weight-log sequences. -/
theorem run_deterministic (num_neurons : ℕ) (np : NeuronParams)
    (cfg : SimulationConfig) (sp : STDPParams) (w0 : ℝ) (f g : ℕ → ℝ → ℝ)
    (hfg : ∀ i t, f i t = g i t) :
    ((Simulation.new num_neurons np cfg sp w0).run f).2.1
      = ((Simulation.new num_neurons np cfg sp w0).run g).2.1 ∧
    ((Simulation.new num_neurons np cfg sp w0).run f).2.2
      = ((Simulation.new num_neurons np cfg sp w0).run g).2.2 := by
  have hf : f = g := funext fun i => funext fun t => hfg i t
  rw [hf]
  exact ⟨rfl, rfl⟩

/-- C9 witness: the example simulation with a constant input function run
against itself. -/
theorem run_deterministic_witness :
    ((Simulation.new 1 sampleNP sampleCfg sampleP 0).run fun _ _ => 2).2.1
      = ((Simulation.new 1 sampleNP sampleCfg sampleP 0).run fun _ _ => 2).2.1 :=
  (run_deterministic 1 sampleNP sampleCfg sampleP 0 _ _ fun _ _ => rfl).1

/-- C10: with `dt > 0`, `run` leaves `time ≥ t_max` on return (it is never
reset), so a second `run` on the already-run simulation — with any
input-current function — executes zero timesteps, returns empty spike and
weight-log sequences, and leaves the whole simulation state unchanged. -/
theorem run_twice (s : Simulation) (fn fn2 : ℕ → ℝ → ℝ) (hdt : 0 < s.config.dt) :
    s.config.t_max ≤ (s.run fn).1.time ∧
    ((s.run fn).1).run fn2 = ((s.run fn).1, [], []) := by
  obtain ⟨h1, h2, h3⟩ := run_time s fn hdt
  refine ⟨h2, ?_⟩
  set s1 := (s.run fn).1 with hs1
  have hz : stepsFrom s1.time s1.config.dt s1.config.t_max = 0 := by
    rw [h3]
    exact stepsFrom_eq_zero _ _ _ hdt h2
  show Simulation.run s1 fn2 = (s1, [], [])
  rw [Simulation.run, hz]
  rfl

/-- C10 witness: the one-neuron example simulation; its second run returns
no spikes and no weight records. -/
theorem run_twice_witness :
    (((Simulation.new 1 sampleNP sampleCfg sampleP 0).run fun _ _ => 2).1).run
        (fun _ _ => 0)
      = (((Simulation.new 1 sampleNP sampleCfg sampleP 0).run fun _ _ => 2).1,
          [], []) :=
  (run_twice (Simulation.new 1 sampleNP sampleCfg sampleP 0) (fun _ _ => 2)
    (fun _ _ => 0) (by norm_num [Simulation.new, sampleCfg])).2

/-! ## Per-step ordering (C3) -/

theorem on_pre_spike_fields (s : Synapse) (t : ℝ) (p : STDPParams) :
    (s.on_pre_spike t p).pre_neuron = s.pre_neuron ∧
    (s.on_pre_spike t p).post_neuron = s.post_neuron := by
  cases h : s.last_post_spike <;> simp [Synapse.on_pre_spike, h]

theorem on_post_spike_fields (s : Synapse) (t : ℝ) (p : STDPParams) :
    (s.on_post_spike t p).pre_neuron = s.pre_neuron ∧
    (s.on_post_spike t p).post_neuron = s.post_neuron := by
  cases h : s.last_pre_spike <;> simp [Synapse.on_post_spike, h]

/-- A one-neuron run state at time `0` used as a concrete instance. -/
noncomputable def sampleState : RunState :=
  RunState.mk (Simulation.new 1 sampleNP sampleCfg sampleP 0) [] []

/-- C3: within a timestep neurons are processed in index order threading the
state — the fold over `0..N-1` processes indices `j..N-1` starting from the
state left by indices `0..j-1`, so a lower-indexed neuron's firing is
visible to higher-indexed neurons in the same step. When neuron `i` fires,
`Spike (i, time)` is appended to the spike list; then every synapse is
visited in declaration order, receiving `on_pre_spike` when its
`pre_neuron` equals `i` and `on_post_spike` when its `post_neuron` equals
`i`; then one `WeightRecord` is appended for every synapse in the network,
reflecting the just-updated weights. -/
theorem run_step_ordering (fn : ℕ → ℝ → ℝ) (st : RunState) (i : ℕ) (neuron : Neuron)
    (hget : st.sim.neurons[i]? = some neuron)
    (hfired : (neuron.step (fn i st.sim.time) st.sim.config.dt).1 = true) :
    stepNeuronAt fn st i =
      { sim := { st.sim with
          neurons := st.sim.neurons.set i
            (neuron.step (fn i st.sim.time) st.sim.config.dt).2,
          synapses := st.sim.synapses.map
            (notifySynapse i st.sim.time st.sim.stdp_params) },
        spikes := st.spikes ++ [Spike.new i st.sim.time],
        weight_log := st.weight_log ++
          (st.sim.synapses.map (notifySynapse i st.sim.time st.sim.stdp_params)).map
            fun syn => { time := st.sim.time, pre := syn.pre_neuron,
                         post := syn.post_neuron, weight := syn.weight } } ∧
    (∀ syn : Synapse, syn.pre_neuron ≠ syn.post_neuron →
      notifySynapse i st.sim.time st.sim.stdp_params syn =
        if syn.pre_neuron = i then syn.on_pre_spike st.sim.time st.sim.stdp_params
        else if syn.post_neuron = i then syn.on_post_spike st.sim.time st.sim.stdp_params
        else syn) ∧
    (∀ (j k : ℕ) (st0 : RunState),
      (List.range (j + k)).foldl (stepNeuronAt fn) st0 =
        ((List.range k).map fun m => j + m).foldl (stepNeuronAt fn)
          ((List.range j).foldl (stepNeuronAt fn) st0)) ∧
    stepAllNeurons fn st
      = (List.range st.sim.neurons.length).foldl (stepNeuronAt fn) st := by
  refine ⟨?_, ?_, ?_, rfl⟩
  · simp [stepNeuronAt, hget, hfired]
  · intro syn hne
    by_cases hpre : syn.pre_neuron = i
    · have hpost : syn.post_neuron ≠ i := fun h => hne (by rw [hpre, h])
      simp [notifySynapse, hpre, hpost,
        (on_pre_spike_fields syn st.sim.time st.sim.stdp_params).2]
    · by_cases hpost : syn.post_neuron = i
      · simp [notifySynapse, hpre, hpost]
      · simp [notifySynapse, hpre, hpost]
  · intro j k st0
    rw [List.range_add, List.foldl_append]

/-- C3 witness: in the one-neuron example state with constant input `2`,
neuron `0` fires at time `0` and the firing branch produces exactly the
spike append, the notified synapse list and the weight log append. -/
theorem run_step_ordering_witness :
    stepNeuronAt (fun _ _ => 2) sampleState 0 =
      { sim := { sampleState.sim with
          neurons := sampleState.sim.neurons.set 0
            ((Neuron.new sampleNP).step ((fun _ _ => (2 : ℝ)) 0 sampleState.sim.time)
              sampleState.sim.config.dt).2,
          synapses := sampleState.sim.synapses.map
            (notifySynapse 0 sampleState.sim.time sampleState.sim.stdp_params) },
        spikes := sampleState.spikes ++ [Spike.new 0 sampleState.sim.time],
        weight_log := sampleState.weight_log ++
          (sampleState.sim.synapses.map
            (notifySynapse 0 sampleState.sim.time sampleState.sim.stdp_params)).map
            fun syn => { time := sampleState.sim.time, pre := syn.pre_neuron,
                         post := syn.post_neuron, weight := syn.weight } } :=
  (run_step_ordering (fun _ _ => 2) sampleState 0 (Neuron.new sampleNP) rfl
    (by norm_num [Neuron.step, Neuron.new, sampleNP, sampleState,
      Simulation.new, sampleCfg])).1

end NeuroSNN
